import Mathlib

/-!
Verification development for the interactive charting engine of the
stock-chart repository: the numeric indicator library, the price/volume
extent extractors, the viewport slicer, and the viewport/gesture model.

Real numbers of the source are modelled as rationals; code whose behaviour
depends on IEEE non-finite values (NaN, plus/minus infinity) is modelled
over an explicit JsVal type that carries those values symbolically.
-/

namespace StockChart

/-! ### A model of JS numbers with non-finite values

Only the handful of operations the slicer and clamp helpers use are
modelled.  The sign of zero is modelled as positive zero. -/

inductive JsVal where
  | finite (q : ℚ)
  | nan
  | posInf
  | negInf
  deriving DecidableEq

/-- Math.abs: NaN stays NaN, both infinities map to positive infinity. -/
def jabs : JsVal → JsVal
  | .nan => .nan
  | .posInf => .posInf
  | .negInf => .posInf
  | .finite q => .finite |q|

/-- Math.max of two values: NaN-propagating, positive infinity dominates. -/
def jmax : JsVal → JsVal → JsVal
  | .nan, _ => .nan
  | _, .nan => .nan
  | .posInf, _ => .posInf
  | _, .posInf => .posInf
  | .negInf, b => b
  | a, .negInf => a
  | .finite a, .finite b => .finite (max a b)

/-- JS addition on the modelled values. -/
def jadd : JsVal → JsVal → JsVal
  | .nan, _ => .nan
  | _, .nan => .nan
  | .posInf, .negInf => .nan
  | .negInf, .posInf => .nan
  | .posInf, _ => .posInf
  | _, .posInf => .posInf
  | .negInf, _ => .negInf
  | _, .negInf => .negInf
  | .finite a, .finite b => .finite (a + b)

/-- JS division on the modelled values (zero treated as positive zero). -/
def jdiv : JsVal → JsVal → JsVal
  | .nan, _ => .nan
  | _, .nan => .nan
  | .finite a, .finite b =>
    if b = 0 then (if a = 0 then .nan else if 0 < a then .posInf else .negInf)
    else .finite (a / b)
  | .finite _, .posInf => .finite 0
  | .finite _, .negInf => .finite 0
  | .posInf, .finite b => if 0 ≤ b then .posInf else .negInf
  | .negInf, .finite b => if 0 ≤ b then .negInf else .posInf
  | .posInf, .posInf => .nan
  | .posInf, .negInf => .nan
  | .negInf, .posInf => .nan
  | .negInf, .negInf => .nan

/-- Math.floor: NaN and infinities pass through. -/
def jfloor : JsVal → JsVal
  | .finite q => .finite ⌊q⌋
  | v => v

/-- Math.ceil: NaN and infinities pass through. -/
def jceil : JsVal → JsVal
  | .finite q => .finite ⌈q⌉
  | v => v

/-- Predicate for the Number.isFinite test of the source. -/
def JsVal.isFin : JsVal → Prop
  | .finite _ => True
  | _ => False

/-! ### Chart data model (frontend/lib/charts/types.ts) -/

structure Candle where
  timestamp : ℤ
  «open» : Option ℚ
  high : Option ℚ
  low : Option ℚ
  close : Option ℚ
  volume : Option ℚ
  trends : Option (List (Option ℚ)) := none
  deriving DecidableEq

instance : Inhabited Candle := ⟨⟨0, none, none, none, none, none, none⟩⟩

structure TrendDefinition where
  id : String
  label : Option String := none
  deriving DecidableEq

structure CandleBatch where
  candles : List Candle
  leadingTrends : Option (List (Option ℚ)) := none
  trailingTrends : Option (List (Option ℚ)) := none
  trendDefinitions : Option (List TrendDefinition) := none
  deriving DecidableEq

structure ViewportSlice where
  candles : List Candle
  leadingTrends : Option (List (Option ℚ)) := none
  trailingTrends : Option (List (Option ℚ)) := none
  trendDefinitions : Option (List TrendDefinition) := none
  startIndex : ℕ
  endIndex : ℕ
  deriving DecidableEq

/-- Viewport fields are JS numbers and may be non-finite: the slicer is
specified to tolerate that, so the fields carry the full JsVal model. -/
structure ChartViewport where
  candleWidth : JsVal
  startOffset : JsVal
  visibleCount : JsVal
  deriving DecidableEq

structure PriceExtremes where
  maxPrice : ℚ
  minPrice : ℚ
  deriving DecidableEq

structure VolumeExtremes where
  maxVolume : ℚ
  minVolume : ℚ
  deriving DecidableEq

def EPSILON : ℚ := 1 / 1000000

/-! ### Indicator library (frontend/lib/charts/utils.ts)

Periods arrive as raw numbers; they are modelled as integers since every
use in the repository passes an integer, and the guards reject all
non-positive values.  A thrown Error is modelled as the error case of
Except. -/

/-- Loop body of computeMovingAverage from index period onward.  Each pair
is (current, previous) = (closes[i], closes[i - period]). -/
def maLoop (period : ℚ) (movingAverage : ℚ) :
    List (Option ℚ × Option ℚ) → List (Option ℚ)
  | [] => []
  | (current, previous) :: rest =>
    match current, previous with
    | some c, some p =>
      let next := (movingAverage * period + c - p) / period
      some next :: maLoop period next rest
    | _, _ => none :: maLoop period movingAverage rest

def computeMovingAverage (candles : List Candle) (period : ℤ) :
    Except String (List (Option ℚ)) :=
  if period ≤ 0 then .error "period must be greater than zero"
  else if candles.length = 0 then .ok []
  else if (candles.length : ℤ) < period * 2 then
    .ok (List.replicate candles.length none)
  else
    let closes := candles.map (fun item => item.close)
    let seed := (closes.take period.toNat).filterMap id
    if seed.length = 0 then .ok (List.replicate candles.length none)
    else
      let movingAverage := seed.foldl (fun sum value => sum + value) 0 / (seed.length : ℚ)
      .ok (List.replicate period.toNat none ++
        maLoop (period : ℚ) movingAverage (List.zip (closes.drop period.toNat) closes))

def calculateRsiValue (avgGain avgLoss : ℚ) : ℚ :=
  if avgLoss = 0 then (if avgGain = 0 then 50 else 100)
  else
    let rs := avgGain / avgLoss
    100 - 100 / (1 + rs)

/-- Mutable loop state of computeRsi: the smoothed averages once seeded,
and the seed accumulators while not. -/
structure RsiState where
  avg : Option (ℚ × ℚ)
  seedCount : ℕ
  seedGains : ℚ
  seedLosses : ℚ

/-- One iteration of the computeRsi loop for the pair
(previous, current) = (closes[i-1], closes[i]); returns the emitted entry
for index i and the successor state. -/
def rsiStep (period : ℤ) (s : RsiState) (previous current : Option ℚ) :
    Option ℚ × RsiState :=
  match current, previous with
  | some c, some p =>
    let change := c - p
    let gain := if 0 < change then change else 0
    let loss := if change < 0 then -change else 0
    match s.avg with
    | none =>
      let seedCount := s.seedCount + 1
      let seedGains := s.seedGains + gain
      let seedLosses := s.seedLosses + loss
      if period ≤ (seedCount : ℤ) then
        let avgGain := seedGains / (period : ℚ)
        let avgLoss := seedLosses / (period : ℚ)
        (some (calculateRsiValue avgGain avgLoss),
          ⟨some (avgGain, avgLoss), seedCount, seedGains, seedLosses⟩)
      else (none, ⟨none, seedCount, seedGains, seedLosses⟩)
    | some (avgGain, avgLoss) =>
      let nextGain := (avgGain * ((period : ℚ) - 1) + gain) / (period : ℚ)
      let nextLoss := (avgLoss * ((period : ℚ) - 1) + loss) / (period : ℚ)
      (some (calculateRsiValue nextGain nextLoss),
        ⟨some (nextGain, nextLoss), s.seedCount, s.seedGains, s.seedLosses⟩)
  | _, _ => (none, s)

def rsiLoop (period : ℤ) (s : RsiState) :
    List (Option ℚ × Option ℚ) → List (Option ℚ)
  | [] => []
  | (previous, current) :: rest =>
    let step := rsiStep period s previous current
    step.1 :: rsiLoop period step.2 rest

def computeRsi (candles : List Candle) (period : ℤ) :
    Except String (List (Option ℚ)) :=
  if period ≤ 0 then .error "period must be greater than zero"
  else if candles.length = 0 then .ok []
  else
    let closes := candles.map (fun item => item.close)
    .ok (none :: rsiLoop period ⟨none, 0, 0, 0⟩ (closes.zip (closes.drop 1)))

/-- Loop of computeEma: running ema state, seed accumulators. -/
def emaLoop (period : ℤ) (multiplier : ℚ) (ema : Option ℚ)
    (seedTotal : ℚ) (seedCount : ℕ) : List (Option ℚ) → List (Option ℚ)
  | [] => []
  | v :: rest =>
    match v with
    | none => none :: emaLoop period multiplier ema seedTotal seedCount rest
    | some value =>
      match ema with
      | none =>
        let seedTotal := seedTotal + value
        let seedCount := seedCount + 1
        if period ≤ (seedCount : ℤ) then
          let e := seedTotal / (period : ℚ)
          some e :: emaLoop period multiplier (some e) seedTotal seedCount rest
        else none :: emaLoop period multiplier none seedTotal seedCount rest
      | some e =>
        let e2 := (value - e) * multiplier + e
        some e2 :: emaLoop period multiplier (some e2) seedTotal seedCount rest

def computeEma (values : List (Option ℚ)) (period : ℤ) :
    Except String (List (Option ℚ)) :=
  if period ≤ 0 then .error "period must be greater than zero"
  else if values.length = 0 then .ok []
  else
    let multiplier := 2 / ((period : ℚ) + 1)
    .ok (emaLoop period multiplier none 0 0 values)

structure MacdResult where
  macd : List (Option ℚ)
  signal : List (Option ℚ)
  histogram : List (Option ℚ)
  deriving DecidableEq

def computeMacd (candles : List Candle) (fastPeriod slowPeriod signalPeriod : ℤ) :
    Except String MacdResult :=
  if fastPeriod ≤ 0 ∨ slowPeriod ≤ 0 ∨ signalPeriod ≤ 0 then
    .error "period must be greater than zero"
  else if candles.length = 0 then .ok ⟨[], [], []⟩
  else do
    let closes := candles.map (fun item => item.close)
    let fastEma ← computeEma closes fastPeriod
    let slowEma ← computeEma closes slowPeriod
    let macd := (List.range closes.length).map (fun index =>
      match fastEma.getD index none, slowEma.getD index none with
      | some fast, some slow => some (fast - slow)
      | _, _ => none)
    let signal ← computeEma macd signalPeriod
    let histogram := (List.range macd.length).map (fun index =>
      match macd.getD index none, signal.getD index none with
      | some value, some signalValue => some (value - signalValue)
      | _, _ => none)
    .ok ⟨macd, signal, histogram⟩

/-! ### Extent extractors (frontend/lib/charts/utils.ts) -/

/-- High value of one candle: high, else max(open, close) when both are
present, else whichever of open/close is present. -/
def priceHighValue (candle : Candle) : Option ℚ :=
  match candle.high with
  | some h => some h
  | none =>
    match candle.«open», candle.close with
    | some o, some c => some (max o c)
    | some o, none => some o
    | none, some c => some c
    | none, none => none

/-- Low value of one candle: low, else min(open, close) when both are
present, else whichever of open/close is present. -/
def priceLowValue (candle : Candle) : Option ℚ :=
  match candle.low with
  | some l => some l
  | none =>
    match candle.«open», candle.close with
    | some o, some c => some (min o c)
    | some o, none => some o
    | none, some c => some c
    | none, none => none

/-- Maximum of a list as the source spreads it into Math.max; call sites
guard against the empty list, for which JS would give negative infinity. -/
def listMax : List ℚ → ℚ
  | [] => 0
  | h :: t => t.foldl max h

/-- Minimum of a list as the source spreads it into Math.min; call sites
guard against the empty list. -/
def listMin : List ℚ → ℚ
  | [] => 0
  | h :: t => t.foldl min h

def extractPriceExtremes (candles : List Candle) : PriceExtremes :=
  if candles.length = 0 then ⟨1, 0⟩
  else
    let highs := candles.filterMap priceHighValue
    let lows := candles.filterMap priceLowValue
    if highs.length = 0 ∨ lows.length = 0 then ⟨1, 0⟩
    else ⟨listMax highs, listMin lows⟩

def extractVolumeExtremes (candles : List Candle) : VolumeExtremes :=
  if candles.length = 0 then ⟨0, 0⟩
  else
    let volumes := (candles.map (fun candle => candle.volume)).filterMap id
    if volumes.length = 0 then ⟨0, 0⟩
    else ⟨listMax volumes, listMin volumes⟩

/-! ### Viewport slicer (frontend/lib/charts/utils.ts) -/

/-- Helper clampIndex of the source.  Its argument is always the result of
Math.floor, so the finite case carries an integer-valued rational and
reading it back with the integer floor is exact; the non-finite branch is
the Number.isNaN / Number.isFinite test of the source. -/
def clampIndex (value : JsVal) (length : ℕ) : ℕ :=
  match value with
  | .finite q => (min (max 0 ⌊q⌋) (max 0 ((length : ℤ) - 1))).toNat
  | _ => 0

/-- Helper clampEnd of the source.  Its candidate is always the result of
Math.ceil, so the finite case carries an integer-valued rational and the
integer ceiling is exact on it. -/
def clampEnd (candidate : JsVal) (startIndex : ℕ) (total : ℕ) : ℕ :=
  let normalized : ℤ :=
    match candidate with
    | .finite q => ⌈q⌉
    | _ => (startIndex : ℤ)
  (min (total : ℤ) (max (startIndex : ℤ) normalized)).toNat

def sliceCandlesForViewport (batch : CandleBatch) (viewport : ChartViewport) :
    ViewportSlice :=
  let total := batch.candles.length
  if total = 0 then
    { candles := [], startIndex := 0, endIndex := 0 }
  else
    let candleWidth := jmax (jabs viewport.candleWidth) (.finite EPSILON)
    let startIndex := clampIndex (jfloor (jdiv viewport.startOffset candleWidth)) total
    let visibleFloat := jmax (.finite 0) viewport.visibleCount
    let endEstimate := jadd (.finite (startIndex : ℚ)) visibleFloat
    let endIndex := clampEnd (jceil endEstimate) startIndex total
    let sliced := (batch.candles.drop startIndex).take (endIndex - startIndex)
    let sliced :=
      if h : endIndex < total then sliced ++ [batch.candles.get ⟨endIndex, h⟩]
      else sliced
    let leading :=
      if 0 < startIndex then (batch.candles.getD (startIndex - 1) default).trends
      else batch.leadingTrends
    let trailingIndex := endIndex + 1
    let trailing :=
      if trailingIndex < total then (batch.candles.getD trailingIndex default).trends
      else batch.trailingTrends
    { candles := sliced
      leadingTrends := leading
      trailingTrends := trailing
      trendDefinitions := batch.trendDefinitions
      startIndex := startIndex
      endIndex := endIndex }

/-- Start index exactly as the specification words it:
clamp(floor(startOffset / candleWidth), 0, n - 1). -/
def specStartIndex (startOffset candleWidth : ℚ) (n : ℕ) : ℤ :=
  min (max ⌊startOffset / candleWidth⌋ 0) ((n : ℤ) - 1)

/-- End index exactly as the specification words it:
clamp(ceil(startIndex + visibleCount), startIndex, n). -/
def specEndIndex (startIndex : ℤ) (visibleCount : ℚ) (n : ℕ) : ℤ :=
  min (max ⌈(startIndex : ℚ) + visibleCount⌉ startIndex) (n : ℤ)

/-! ### Viewport and gesture model (interactive-candle-chart.tsx)

The gesture handlers only ever receive and produce finite values once the
clamp helper has run, so this part of the model works over plain
rationals; the clamp helper is the finite case of the JsVal clamp. -/

/-- Helper clamp of the chart component over the JsVal model: any
non-finite value becomes the lower bound. -/
def clampJs (value : JsVal) (lo hi : ℚ) : ℚ :=
  match value with
  | .finite q => min (max q lo) hi
  | _ => lo

/-- Helper clamp of the chart component, applied at a finite value. -/
def clamp (value lo hi : ℚ) : ℚ := clampJs (.finite value) lo hi

def getMaxStartOffset (chartWidth candleWidth : ℚ) (candleCount : ℕ) : ℚ :=
  if candleWidth ≤ 0 then 0
  else
    let visible := chartWidth / candleWidth
    let start := (candleCount : ℚ) - visible
    max 0 (candleWidth * start)

def clampStartOffset (target chartSpan widthPerCandle : ℚ) (candleCount : ℕ) : ℚ :=
  clamp target 0 (getMaxStartOffset chartSpan widthPerCandle candleCount)

/-- Mutable state of one chart instance: the derived drawable width, the
two viewport fields, the first-layout marker, and the gesture snapshots. -/
structure VPState where
  chartWidth : ℚ
  candleWidth : ℚ
  startOffset : ℚ
  prevChartWidth : Option ℚ
  prevCandleWidth : ℚ
  prevStartOffset : ℚ
  initialFocalX : ℚ
  deriving DecidableEq

/-- State before the first layout: all zero, no recorded width. -/
def initialVPState : VPState := ⟨0, 0, 0, none, 0, 0, 0⟩

def recalculateViewportForResize (chartWidth : ℚ) (candleCount : ℕ)
    (initialVisibleCandleCount : ℚ) (s : VPState) : VPState :=
  if chartWidth ≤ 0 ∨ candleCount = 0 then s
  else
    match s.prevChartWidth with
    | some _ =>
      let minWidth := chartWidth / (candleCount : ℚ)
      let maxWidth := chartWidth / max (min 14 (candleCount : ℚ)) 1
      let nextCandleWidth := clamp s.candleWidth minWidth (max minWidth maxWidth)
      let nextStartOffset := clamp s.startOffset 0
        (getMaxStartOffset chartWidth nextCandleWidth candleCount)
      { s with candleWidth := nextCandleWidth, startOffset := nextStartOffset,
               prevChartWidth := some chartWidth }
    | none =>
      let visibleCount := min (candleCount : ℚ) initialVisibleCandleCount
      let nextCandleWidth := chartWidth / max visibleCount 1
      let nextStartOffset := max 0 (((candleCount : ℚ) - visibleCount) * nextCandleWidth)
      { s with candleWidth := nextCandleWidth, startOffset := nextStartOffset,
               prevChartWidth := some chartWidth }

/-- Layout callback: the drawable width is the layout width minus the
price-label inset, floored at zero, and is recorded in the state before
the viewport recalculation runs. -/
def handleLayoutResize (width priceLabelWidth : ℚ) (candleCount : ℕ)
    (initialVisibleCandleCount : ℚ) (s : VPState) : VPState :=
  let chartWidth := max (width - priceLabelWidth) 0
  recalculateViewportForResize chartWidth candleCount initialVisibleCandleCount
    { s with chartWidth := chartWidth }

def handlePanStart (s : VPState) : VPState :=
  { s with prevStartOffset := s.startOffset }

def handlePanUpdate (candleCount : ℕ) (translationX : ℚ) (s : VPState) : VPState :=
  let target := s.prevStartOffset + translationX * (-1)
  { s with startOffset := clampStartOffset target s.chartWidth s.candleWidth candleCount }

def handlePinchStart (focalX : ℚ) (s : VPState) : VPState :=
  { s with prevCandleWidth := s.candleWidth,
           prevStartOffset := s.startOffset,
           initialFocalX := clamp focalX 0 s.chartWidth }

def handlePinchUpdate (candleCount : ℕ) (scale focalX : ℚ) (s : VPState) : VPState :=
  let prevCandleWidth := if s.prevCandleWidth = 0 then s.candleWidth else s.prevCandleWidth
  if prevCandleWidth ≤ 0 ∨ s.chartWidth ≤ 0 then s
  else
    let clampedFocal := clamp focalX 0 s.chartWidth
    let minCandleWidth := s.chartWidth / max (candleCount : ℚ) 1
    let maxCandleWidth := s.chartWidth / max (min 14 (candleCount : ℚ)) 1
    let nextCandleWidth := clamp (prevCandleWidth * scale) minCandleWidth
      (max minCandleWidth maxCandleWidth)
    let clampedScale := nextCandleWidth / prevCandleWidth
    let afterScale := s.prevStartOffset * clampedScale
    let dx := (clampedFocal - s.initialFocalX) * (-1)
    let afterShift := afterScale + dx
    let prevCount := s.chartWidth / prevCandleWidth
    let nextCount := s.chartWidth / nextCandleWidth
    let zoomAdjustment := (nextCount - prevCount) * nextCandleWidth
    let focalFactor := clampedFocal / s.chartWidth
    let adjusted := afterShift - zoomAdjustment * focalFactor
    let nextStartOffset := clampStartOffset adjusted s.chartWidth nextCandleWidth candleCount
    { s with candleWidth := nextCandleWidth, startOffset := nextStartOffset }

/-- One gesture or layout event reaching the chart. -/
inductive GestureOp where
  | resize (width priceLabelWidth : ℚ)
  | panStart
  | panUpdate (translationX : ℚ)
  | pinchStart (focalX : ℚ)
  | pinchUpdate (scale focalX : ℚ)
  deriving DecidableEq

def applyOp (candleCount : ℕ) (initialVisibleCandleCount : ℚ) (s : VPState) :
    GestureOp → VPState
  | .resize width priceLabelWidth =>
    handleLayoutResize width priceLabelWidth candleCount initialVisibleCandleCount s
  | .panStart => handlePanStart s
  | .panUpdate translationX => handlePanUpdate candleCount translationX s
  | .pinchStart focalX => handlePinchStart focalX s
  | .pinchUpdate scale focalX => handlePinchUpdate candleCount scale focalX s

def applyOps (candleCount : ℕ) (initialVisibleCandleCount : ℚ) (s : VPState) :
    List GestureOp → VPState
  | [] => s
  | op :: rest =>
    applyOps candleCount initialVisibleCandleCount
      (applyOp candleCount initialVisibleCandleCount s op) rest

/-- Difference of two optional values as the specification words it:
present exactly when both operands are present. -/
def macdCombine : Option ℚ → Option ℚ → Option ℚ
  | some a, some b => some (a - b)
  | _, _ => none

/-- Candle with only a close value, for concrete instantiations. -/
def closeOnlyCandle (q : ℚ) : Candle := ⟨0, none, none, none, some q, none, none⟩

/-- Close series of a candle list, the closes local of computeMacd. -/
def macdCloses (candles : List Candle) : List (Option ℚ) :=
  candles.map (fun item => item.close)

/-- Successful payload of computeEma: what the ok branches return. -/
def emaOut (values : List (Option ℚ)) (period : ℤ) : List (Option ℚ) :=
  if values.length = 0 then []
  else emaLoop period (2 / ((period : ℚ) + 1)) none 0 0 values

/-- The macd local of computeMacd, written with named stages. -/
def macdLine (candles : List Candle) (fastPeriod slowPeriod : ℤ) : List (Option ℚ) :=
  (List.range (macdCloses candles).length).map (fun index =>
    match (emaOut (macdCloses candles) fastPeriod).getD index none,
        (emaOut (macdCloses candles) slowPeriod).getD index none with
    | some fast, some slow => some (fast - slow)
    | _, _ => none)

/-- The signal local of computeMacd. -/
def signalLine (candles : List Candle) (fastPeriod slowPeriod signalPeriod : ℤ) :
    List (Option ℚ) :=
  emaOut (macdLine candles fastPeriod slowPeriod) signalPeriod

/-- The histogram local of computeMacd. -/
def histogramLine (candles : List Candle) (fastPeriod slowPeriod signalPeriod : ℤ) :
    List (Option ℚ) :=
  (List.range (macdLine candles fastPeriod slowPeriod).length).map (fun index =>
    match (macdLine candles fastPeriod slowPeriod).getD index none,
        (signalLine candles fastPeriod slowPeriod signalPeriod).getD index none with
    | some value, some signalValue => some (value - signalValue)
    | _, _ => none)

/-- Start index the slicer computes for a finite-valued viewport, written
as one integer formula (the effective candle width is max(abs(w), EPSILON)). -/
def effStartIndex (startOffset candleWidth : ℚ) (n : ℕ) : ℕ :=
  (min (max 0 ⌊startOffset / max |candleWidth| EPSILON⌋) (max 0 ((n : ℤ) - 1))).toNat

/-- End index the slicer computes for a finite-valued viewport, written as
one integer formula. -/
def effEndIndex (startIndex : ℕ) (visibleCount : ℚ) (n : ℕ) : ℕ :=
  (min (n : ℤ) (max (startIndex : ℤ) ⌈(startIndex : ℚ) + max 0 visibleCount⌉)).toNat

/-- Three-candle batch for concrete slicer evaluations. -/
def sampleBatch3 : CandleBatch :=
  ⟨[closeOnlyCandle 1, closeOnlyCandle 2, closeOnlyCandle 3], none, none, none⟩

/-- Viewport whose candle width is positive but below EPSILON. -/
def tinyViewport : ChartViewport :=
  ⟨.finite (1 / 10000000), .finite (3 / 10000000), .finite 0⟩

/-- Ten-candle list for the concrete slicing scenario. -/
def tenCandles : List Candle :=
  [closeOnlyCandle 1, closeOnlyCandle 2, closeOnlyCandle 3, closeOnlyCandle 4,
   closeOnlyCandle 5, closeOnlyCandle 6, closeOnlyCandle 7, closeOnlyCandle 8,
   closeOnlyCandle 9, closeOnlyCandle 10]

/-- Invariant of the viewport state: non-negative drawable width and
candle width, and a scroll offset inside [0, maxStartOffset]. -/
def VPInv (candleCount : ℕ) (s : VPState) : Prop :=
  0 ≤ s.chartWidth ∧ 0 ≤ s.candleWidth ∧ 0 ≤ s.startOffset ∧
  s.startOffset ≤ getMaxStartOffset s.chartWidth s.candleWidth candleCount

/-- Invariant carried by the computeRsi loop state: all accumulated gain
and loss quantities are non-negative. -/
def RsiInv (s : RsiState) : Prop :=
  0 ≤ s.seedGains ∧ 0 ≤ s.seedLosses ∧
  ∀ g l, s.avg = some (g, l) → 0 ≤ g ∧ 0 ≤ l

/-! ### Helper lemmas -/

theorem except_bind_ok {α β : Type} (a : α) (f : α → Except String β) :
    (Except.ok a >>= f : Except String β) = f a := rfl

theorem getD_range_map {α : Type} (f : ℕ → α) (d : α) (n i : ℕ) (h : i < n) :
    ((List.range n).map f).getD i d = f i := by
  rw [List.getD_eq_getElem?_getD, List.getElem?_map, List.getElem?_range h]
  rfl

theorem computeEma_pos (values : List (Option ℚ)) (period : ℤ) (h : 0 < period)
    (hne : values.length ≠ 0) :
    computeEma values period =
      .ok (emaLoop period (2 / ((period : ℚ) + 1)) none 0 0 values) := by
  unfold computeEma
  rw [if_neg h.not_le, if_neg hne]

theorem computeEma_nil (period : ℤ) (h : 0 < period) :
    computeEma [] period = .ok [] := by
  unfold computeEma
  rw [if_neg h.not_le]
  simp

/-! ### C2: moving-average warm-up -/

/-- C2: for every period p greater than 0 and candle count n with
0 < n < 2p, computeMovingAverage returns exactly n missing entries, and
returns the empty sequence for empty input, so no numeric value is ever
emitted before a warm-up window of 2p samples exists. -/
theorem movingAverage_warmup_c2 (candles : List Candle) (period : ℤ)
    (hp : 0 < period) :
    (candles = [] → computeMovingAverage candles period = .ok []) ∧
    (candles ≠ [] → (candles.length : ℤ) < 2 * period →
      computeMovingAverage candles period = .ok (List.replicate candles.length none)) := by
  constructor
  · intro h
    subst h
    unfold computeMovingAverage
    rw [if_neg hp.not_le]
    simp
  · intro hne hlt
    have hlen : candles.length ≠ 0 := by
      simpa [List.length_eq_zero] using hne
    unfold computeMovingAverage
    rw [if_neg hp.not_le, if_neg hlen, if_pos (by omega)]

theorem movingAverage_warmup_c2_witness :
    computeMovingAverage [] 3 = .ok [] ∧
    computeMovingAverage [closeOnlyCandle 7, closeOnlyCandle 8] 3 =
      .ok (List.replicate 2 none) := by
  refine ⟨(movingAverage_warmup_c2 [] 3 (by norm_num)).1 rfl, ?_⟩
  exact (movingAverage_warmup_c2 [closeOnlyCandle 7, closeOnlyCandle 8] 3
    (by norm_num)).2 (by simp) (by norm_num)

/-! ### C6: period guards -/

theorem computeMovingAverage_isOk (candles : List Candle) (period : ℤ)
    (h : 0 < period) : ∃ l, computeMovingAverage candles period = .ok l := by
  unfold computeMovingAverage
  rw [if_neg h.not_le]
  dsimp only
  split_ifs <;> exact ⟨_, rfl⟩

theorem computeRsi_isOk (candles : List Candle) (period : ℤ)
    (h : 0 < period) : ∃ l, computeRsi candles period = .ok l := by
  unfold computeRsi
  rw [if_neg h.not_le]
  split_ifs <;> exact ⟨_, rfl⟩

theorem computeMacd_isOk (candles : List Candle) (f s g : ℤ)
    (hf : 0 < f) (hs : 0 < s) (hg : 0 < g) :
    ∃ r, computeMacd candles f s g = .ok r := by
  unfold computeMacd
  rw [if_neg (by push_neg; exact ⟨hf, hs, hg⟩)]
  by_cases hlen : candles.length = 0
  · rw [if_pos hlen]
    exact ⟨_, rfl⟩
  · rw [if_neg hlen]
    dsimp only
    rw [computeEma_pos _ f hf (by simpa using hlen), except_bind_ok]
    rw [computeEma_pos _ s hs (by simpa using hlen), except_bind_ok]
    rw [computeEma_pos _ g hg (by simpa using hlen), except_bind_ok]
    exact ⟨_, rfl⟩

/-- C6: each indicator entry point fails with the argument error exactly
when some supplied period is non-positive, for every candle sequence. -/
theorem indicator_period_guard_c6 (candles : List Candle) (p f s g : ℤ) :
    ((∃ e, computeMovingAverage candles p = .error e) ↔ p ≤ 0) ∧
    ((∃ e, computeRsi candles p = .error e) ↔ p ≤ 0) ∧
    ((∃ e, computeMacd candles f s g = .error e) ↔ f ≤ 0 ∨ s ≤ 0 ∨ g ≤ 0) := by
  refine ⟨⟨?_, ?_⟩, ⟨?_, ?_⟩, ⟨?_, ?_⟩⟩
  · rintro ⟨e, he⟩
    by_contra hp
    obtain ⟨l, hl⟩ := computeMovingAverage_isOk candles p (by omega)
    rw [hl] at he
    exact Except.noConfusion he
  · intro hp
    exact ⟨_, by unfold computeMovingAverage; rw [if_pos hp]⟩
  · rintro ⟨e, he⟩
    by_contra hp
    obtain ⟨l, hl⟩ := computeRsi_isOk candles p (by omega)
    rw [hl] at he
    exact Except.noConfusion he
  · intro hp
    exact ⟨_, by unfold computeRsi; rw [if_pos hp]⟩
  · rintro ⟨e, he⟩
    by_contra hp
    push_neg at hp
    obtain ⟨r, hr⟩ := computeMacd_isOk candles f s g hp.1 hp.2.1 hp.2.2
    rw [hr] at he
    exact Except.noConfusion he
  · intro hp
    exact ⟨_, by unfold computeMacd; rw [if_pos hp]⟩

theorem indicator_period_guard_c6_witness :
    ∃ e, computeMovingAverage [] 0 = Except.error e :=
  (indicator_period_guard_c6 [] 0 0 0 0).1.mpr (le_refl 0)

/-! ### C9: clamp on non-finite coordinates -/

/-- C9 counterexample: the claim says positive infinity clamps to the
upper bound; the code returns the lower bound for every non-finite value,
so at bounds [0, 1] the result is 0, not 1. -/
theorem clamp_posInf_c9_counterexample :
    clampJs JsVal.posInf 0 1 = 0 ∧ clampJs JsVal.posInf 0 1 ≠ 1 := by
  constructor
  · rfl
  · intro h
    rw [show clampJs JsVal.posInf 0 1 = 0 from rfl] at h
    exact absurd h (by norm_num)

/-- C9 amended: for every non-finite coordinate (NaN, positive or negative
infinity) and bounds lo less-or-equal hi, the clamp helper returns the
lower bound lo, never propagating the non-finite value. -/
theorem clamp_nonfinite_c9 (lo hi : ℚ) (_h : lo ≤ hi) (v : JsVal)
    (hv : ¬ v.isFin) : clampJs v lo hi = lo := by
  cases v
  · exact absurd trivial hv
  · rfl
  · rfl
  · rfl

theorem clamp_nonfinite_c9_witness :
    (0 : ℚ) ≤ 1 ∧ clampJs JsVal.nan 0 1 = 0 :=
  ⟨by norm_num, clamp_nonfinite_c9 0 1 (by norm_num) JsVal.nan (by simp [JsVal.isFin])⟩

/-! ### C5: extent extractor fallbacks -/

/-- C5: the price extractor returns the placeholder maxPrice 1, minPrice 0
for an empty sequence and when no candle has any usable price value, and
the volume extractor returns maxVolume 0, minVolume 0 for an empty
sequence and when every volume is missing; both are total functions. -/
theorem extremes_defaults_c5 :
    (extractPriceExtremes [] = ⟨1, 0⟩) ∧
    (∀ candles : List Candle,
      (∀ c ∈ candles, c.high = none ∧ c.low = none ∧ c.«open» = none ∧ c.close = none) →
      extractPriceExtremes candles = ⟨1, 0⟩) ∧
    (extractVolumeExtremes [] = ⟨0, 0⟩) ∧
    (∀ candles : List Candle, (∀ c ∈ candles, c.volume = none) →
      extractVolumeExtremes candles = ⟨0, 0⟩) := by
  refine ⟨rfl, ?_, rfl, ?_⟩
  · intro candles h
    unfold extractPriceExtremes
    by_cases hlen : candles.length = 0
    · rw [if_pos hlen]
    · rw [if_neg hlen]
      have hhighs : candles.filterMap priceHighValue = [] := by
        rw [List.filterMap_eq_nil_iff]
        intro c hc
        obtain ⟨h1, h2, h3, h4⟩ := h c hc
        simp [priceHighValue, h1, h3, h4]
      rw [if_pos (Or.inl (by rw [hhighs]; rfl))]
  · intro candles h
    unfold extractVolumeExtremes
    by_cases hlen : candles.length = 0
    · rw [if_pos hlen]
    · rw [if_neg hlen]
      have hvol : (candles.map (fun candle => candle.volume)).filterMap id = [] := by
        rw [List.filterMap_eq_nil_iff]
        intro v hv
        rw [List.mem_map] at hv
        obtain ⟨c, hc, rfl⟩ := hv
        simpa using h c hc
      rw [if_pos (by rw [hvol]; rfl)]

theorem extremes_defaults_c5_witness :
    extractPriceExtremes [Candle.mk 0 none none none none none none] = ⟨1, 0⟩ ∧
    extractVolumeExtremes [Candle.mk 0 none none none none none none] = ⟨0, 0⟩ :=
  ⟨extremes_defaults_c5.2.1 _ (by simp),
   extremes_defaults_c5.2.2.2 _ (by simp)⟩

/-! ### C4: MACD structure -/

/-- C4: with positive periods, computeMacd succeeds and returns per-index
sequences where the macd line is the pointwise difference of the fast and
slow EMA (missing when either is missing), the signal line is the EMA of
the macd line with the signal period, and the histogram is the pointwise
difference of macd line and signal line, missing when either is missing. -/
theorem computeEma_out (values : List (Option ℚ)) (period : ℤ) (h : 0 < period) :
    computeEma values period = .ok (emaOut values period) := by
  unfold computeEma emaOut
  rw [if_neg h.not_le]
  by_cases hlen : values.length = 0
  · rw [if_pos hlen, if_pos hlen]
  · rw [if_neg hlen, if_neg hlen]

theorem computeMacd_pos (candles : List Candle) (f s g : ℤ)
    (hf : 0 < f) (hs : 0 < s) (hg : 0 < g) :
    computeMacd candles f s g =
      .ok ⟨macdLine candles f s, signalLine candles f s g, histogramLine candles f s g⟩ := by
  unfold computeMacd
  rw [if_neg (by push_neg; exact ⟨hf, hs, hg⟩)]
  by_cases hlen : candles.length = 0
  · rw [if_pos hlen]
    have hnil : candles = [] := List.length_eq_zero.mp hlen
    subst hnil
    rfl
  · rw [if_neg hlen]
    dsimp only
    rw [show candles.map (fun item => item.close) = macdCloses candles from rfl]
    rw [computeEma_out _ f hf, except_bind_ok, computeEma_out _ s hs, except_bind_ok]
    rw [show ((List.range (macdCloses candles).length).map (fun index =>
      match (emaOut (macdCloses candles) f).getD index none,
          (emaOut (macdCloses candles) s).getD index none with
      | some fast, some slow => some (fast - slow)
      | _, _ => none)) = macdLine candles f s from rfl]
    rw [computeEma_out _ g hg, except_bind_ok]
    rfl

theorem macd_structure_c4 (candles : List Candle) (f s g : ℤ)
    (hf : 0 < f) (hs : 0 < s) (hg : 0 < g) :
    ∃ r fe se, computeMacd candles f s g = .ok r ∧
      computeEma (candles.map (fun item => item.close)) f = .ok fe ∧
      computeEma (candles.map (fun item => item.close)) s = .ok se ∧
      r.macd.length = candles.length ∧
      (∀ i, i < candles.length →
        r.macd.getD i none = macdCombine (fe.getD i none) (se.getD i none)) ∧
      computeEma r.macd g = .ok r.signal ∧
      r.histogram.length = r.macd.length ∧
      (∀ i, i < r.macd.length →
        r.histogram.getD i none = macdCombine (r.macd.getD i none) (r.signal.getD i none)) := by
  refine ⟨⟨macdLine candles f s, signalLine candles f s g, histogramLine candles f s g⟩,
    emaOut (macdCloses candles) f, emaOut (macdCloses candles) s,
    computeMacd_pos candles f s g hf hs hg,
    computeEma_out _ f hf, computeEma_out _ s hs, ?_, ?_, computeEma_out _ g hg, ?_, ?_⟩
  · simp [macdLine, macdCloses]
  · intro i hi
    unfold macdLine
    rw [getD_range_map _ _ _ i (by simpa [macdCloses] using hi)]
    cases (emaOut (macdCloses candles) f).getD i none <;>
      cases (emaOut (macdCloses candles) s).getD i none <;> rfl
  · simp [histogramLine]
  · intro i hi
    unfold histogramLine
    rw [getD_range_map _ _ _ i hi]
    cases (macdLine candles f s).getD i none <;>
      cases (signalLine candles f s g).getD i none <;> rfl

theorem macd_structure_c4_witness : (computeMacd [] 1 1 1).isOk = true := by
  obtain ⟨r, fe, se, h1, -⟩ := macd_structure_c4 [] 1 1 1
    (by norm_num) (by norm_num) (by norm_num)
  rw [h1]
  rfl

/-! ### C3: RSI bounds -/

theorem calculateRsiValue_bounds (g l : ℚ) (hg : 0 ≤ g) (hl : 0 ≤ l) :
    0 ≤ calculateRsiValue g l ∧ calculateRsiValue g l ≤ 100 := by
  unfold calculateRsiValue
  by_cases h : l = 0
  · rw [if_pos h]
    by_cases h2 : g = 0
    · rw [if_pos h2]
      norm_num
    · rw [if_neg h2]
      norm_num
  · rw [if_neg h]
    have hl2 : 0 < l := lt_of_le_of_ne hl (Ne.symm h)
    have hrs : 0 ≤ g / l := div_nonneg hg hl2.le
    have h1 : (0 : ℚ) < 1 + g / l := by linarith
    have h2 : 100 / (1 + g / l) ≤ 100 := div_le_self (by norm_num) (by linarith)
    have h3 : 0 < 100 / (1 + g / l) := div_pos (by norm_num) h1
    dsimp only
    constructor <;> linarith

theorem rsiStep_inv (period : ℤ) (hp : 0 < period) (s : RsiState) (hs : RsiInv s)
    (previous current : Option ℚ) :
    RsiInv (rsiStep period s previous current).2 ∧
    ∀ v, (rsiStep period s previous current).1 = some v → 0 ≤ v ∧ v ≤ 100 := by
  obtain ⟨avg, sc, sg, sl⟩ := s
  obtain ⟨hg, hl, havg⟩ := hs
  have hpq : (0 : ℚ) < (period : ℚ) := by exact_mod_cast hp
  have hp1 : (1 : ℚ) ≤ (period : ℚ) := by exact_mod_cast (by omega : (1 : ℤ) ≤ period)
  rcases current with - | c
  · refine ⟨⟨hg, hl, havg⟩, ?_⟩
    intro v h
    simp [rsiStep] at h
  rcases previous with - | p
  · refine ⟨⟨hg, hl, havg⟩, ?_⟩
    intro v h
    simp [rsiStep] at h
  have hgain : 0 ≤ (if 0 < c - p then c - p else 0 : ℚ) := by
    split_ifs with h
    · exact le_of_lt h
    · exact le_refl 0
  have hloss : 0 ≤ (if c - p < 0 then -(c - p) else 0 : ℚ) := by
    split_ifs with h
    · linarith
    · exact le_refl 0
  rcases avg with - | ⟨ag, al⟩
  · unfold rsiStep
    dsimp only
    set gainE := (if 0 < c - p then c - p else 0 : ℚ) with hgdef
    set lossE := (if c - p < 0 then -(c - p) else 0 : ℚ) with hldef
    split_ifs with hseed
    · constructor
      · refine ⟨add_nonneg hg hgain, add_nonneg hl hloss, ?_⟩
        intro g2 l2 heq
        injection heq with h2
        rw [Prod.mk.injEq] at h2
        obtain ⟨h3, h4⟩ := h2
        rw [← h3, ← h4]
        exact ⟨div_nonneg (add_nonneg hg hgain) hpq.le,
          div_nonneg (add_nonneg hl hloss) hpq.le⟩
      · intro v h
        injection h with h2
        rw [← h2]
        exact calculateRsiValue_bounds _ _
          (div_nonneg (add_nonneg hg hgain) hpq.le)
          (div_nonneg (add_nonneg hl hloss) hpq.le)
    · refine ⟨⟨add_nonneg hg hgain, add_nonneg hl hloss, ?_⟩, ?_⟩
      · intro g2 l2 heq
        exact Option.noConfusion heq
      · intro v h
        exact h.elim
  · obtain ⟨hag, hal⟩ := havg ag al rfl
    unfold rsiStep
    dsimp only
    set gainE := (if 0 < c - p then c - p else 0 : ℚ) with hgdef
    set lossE := (if c - p < 0 then -(c - p) else 0 : ℚ) with hldef
    have hng : 0 ≤ (ag * ((period : ℚ) - 1) + gainE) / (period : ℚ) :=
      div_nonneg (add_nonneg (mul_nonneg hag (by linarith)) hgain) hpq.le
    have hnl : 0 ≤ (al * ((period : ℚ) - 1) + lossE) / (period : ℚ) :=
      div_nonneg (add_nonneg (mul_nonneg hal (by linarith)) hloss) hpq.le
    constructor
    · refine ⟨hg, hl, ?_⟩
      intro g2 l2 heq
      injection heq with h2
      rw [Prod.mk.injEq] at h2
      obtain ⟨h3, h4⟩ := h2
      rw [← h3, ← h4]
      exact ⟨hng, hnl⟩
    · intro v h
      injection h with h2
      rw [← h2]
      exact calculateRsiValue_bounds _ _ hng hnl

theorem rsiLoop_bounds (period : ℤ) (hp : 0 < period) :
    ∀ (pairs : List (Option ℚ × Option ℚ)) (s : RsiState), RsiInv s →
      ∀ v : ℚ, some v ∈ rsiLoop period s pairs → 0 ≤ v ∧ v ≤ 100 := by
  intro pairs
  induction pairs with
  | nil =>
    intro s hs v hv
    simp [rsiLoop] at hv
  | cons head tail ih =>
    intro s hs v hv
    obtain ⟨prev, cur⟩ := head
    simp only [rsiLoop] at hv
    rcases List.mem_cons.mp hv with h | h
    · exact (rsiStep_inv period hp s hs prev cur).2 v h.symm
    · exact ih _ (rsiStep_inv period hp s hs prev cur).1 v h

/-- C3: every value emitted by computeRsi with a positive period lies in
the closed interval [0, 100]; the value function yields exactly 50 when
both smoothed averages are zero, exactly 100 when the average loss is zero
with positive average gain, and 100 - 100/(1 + avgGain/avgLoss) whenever
the average loss is non-zero. -/
theorem rsi_bounds_c3 (candles : List Candle) (period : ℤ) (hp : 0 < period) :
    (∀ out, computeRsi candles period = .ok out →
      ∀ v : ℚ, some v ∈ out → 0 ≤ v ∧ v ≤ 100) ∧
    calculateRsiValue 0 0 = 50 ∧
    (∀ g : ℚ, 0 < g → calculateRsiValue g 0 = 100) ∧
    (∀ g l : ℚ, l ≠ 0 → calculateRsiValue g l = 100 - 100 / (1 + g / l)) := by
  refine ⟨?_, by norm_num [calculateRsiValue], ?_, ?_⟩
  · intro out hout v hv
    unfold computeRsi at hout
    rw [if_neg hp.not_le] at hout
    by_cases hlen : candles.length = 0
    · rw [if_pos hlen] at hout
      injection hout with h2
      rw [← h2] at hv
      simp at hv
    · rw [if_neg hlen] at hout
      dsimp only at hout
      injection hout with h2
      rw [← h2] at hv
      rcases List.mem_cons.mp hv with h | h
      · exact Option.noConfusion h
      · refine rsiLoop_bounds period hp _ _ ⟨le_refl 0, le_refl 0, ?_⟩ v h
        intro g2 l2 heq
        exact Option.noConfusion heq
  · intro g hgpos
    unfold calculateRsiValue
    rw [if_pos rfl, if_neg (ne_of_gt hgpos)]
  · intro g l hl
    unfold calculateRsiValue
    rw [if_neg hl]

theorem rsi_bounds_c3_witness : calculateRsiValue 0 0 = 50 :=
  (rsi_bounds_c3 [] 1 (by norm_num)).2.1

/-! ### C10: slicer totality -/

theorem clampIndex_le (value : JsVal) (n : ℕ) (hn : 0 < n) :
    clampIndex value n ≤ n - 1 := by
  cases value <;> simp only [clampIndex] <;> omega

theorem clampEnd_bounds (candidate : JsVal) (si n : ℕ) (hsi : si ≤ n) :
    si ≤ clampEnd candidate si n ∧ clampEnd candidate si n ≤ n := by
  cases candidate <;> simp only [clampEnd] <;> omega

/-- C10: the slicer is total over arbitrary viewport states, returns the
empty slice with both indices zero on empty input, and for non-empty input
of length n returns indices with startIndex at most n - 1, startIndex at
most endIndex, and endIndex at most n, so every array access is in
bounds. -/
theorem slicer_total_c10 (batch : CandleBatch) (viewport : ChartViewport) :
    (batch.candles.length = 0 →
      sliceCandlesForViewport batch viewport = ⟨[], none, none, none, 0, 0⟩) ∧
    (0 < batch.candles.length →
      (sliceCandlesForViewport batch viewport).startIndex ≤ batch.candles.length - 1 ∧
      (sliceCandlesForViewport batch viewport).startIndex ≤
        (sliceCandlesForViewport batch viewport).endIndex ∧
      (sliceCandlesForViewport batch viewport).endIndex ≤ batch.candles.length) := by
  constructor
  · intro hlen
    unfold sliceCandlesForViewport
    rw [if_pos hlen]
  · intro hn
    unfold sliceCandlesForViewport
    rw [if_neg hn.ne.symm]
    dsimp only
    have hstart := clampIndex_le
      (jfloor (jdiv viewport.startOffset (jmax (jabs viewport.candleWidth) (.finite EPSILON))))
      batch.candles.length hn
    have hsi : clampIndex
        (jfloor (jdiv viewport.startOffset (jmax (jabs viewport.candleWidth) (.finite EPSILON))))
        batch.candles.length ≤ batch.candles.length := by omega
    refine ⟨hstart, ?_, ?_⟩
    · exact (clampEnd_bounds _ _ _ hsi).1
    · exact (clampEnd_bounds _ _ _ hsi).2

theorem slicer_total_c10_witness :
    (sliceCandlesForViewport ⟨[closeOnlyCandle 1], none, none, none⟩
      ⟨JsVal.nan, JsVal.nan, JsVal.nan⟩).startIndex ≤ 0 ∧
    (sliceCandlesForViewport ⟨[closeOnlyCandle 1], none, none, none⟩
      ⟨JsVal.nan, JsVal.nan, JsVal.nan⟩).startIndex ≤
      (sliceCandlesForViewport ⟨[closeOnlyCandle 1], none, none, none⟩
        ⟨JsVal.nan, JsVal.nan, JsVal.nan⟩).endIndex ∧
    (sliceCandlesForViewport ⟨[closeOnlyCandle 1], none, none, none⟩
      ⟨JsVal.nan, JsVal.nan, JsVal.nan⟩).endIndex ≤ 1 := by
  simpa using (slicer_total_c10 ⟨[closeOnlyCandle 1], none, none, none⟩
    ⟨JsVal.nan, JsVal.nan, JsVal.nan⟩).2 (by simp)

/-! ### C8: slicer index formulas -/

theorem slice_eval (batch : CandleBatch) (cw so vc : ℚ)
    (hlen : batch.candles.length ≠ 0) :
    (sliceCandlesForViewport batch ⟨.finite cw, .finite so, .finite vc⟩).startIndex =
      effStartIndex so cw batch.candles.length ∧
    (sliceCandlesForViewport batch ⟨.finite cw, .finite so, .finite vc⟩).endIndex =
      effEndIndex (effStartIndex so cw batch.candles.length) vc batch.candles.length ∧
    (sliceCandlesForViewport batch ⟨.finite cw, .finite so, .finite vc⟩).candles =
      (batch.candles.drop (effStartIndex so cw batch.candles.length)).take
        (effEndIndex (effStartIndex so cw batch.candles.length) vc batch.candles.length -
          effStartIndex so cw batch.candles.length) ++
      (if effEndIndex (effStartIndex so cw batch.candles.length) vc batch.candles.length <
          batch.candles.length then
        [batch.candles.getD
          (effEndIndex (effStartIndex so cw batch.candles.length) vc batch.candles.length)
          default]
      else []) := by
  have heps : (0 : ℚ) < EPSILON := by norm_num [EPSILON]
  have hne : max |cw| EPSILON ≠ 0 := by
    have : EPSILON ≤ max |cw| EPSILON := le_max_right _ _
    intro h
    rw [h] at this
    exact absurd (lt_of_lt_of_le heps this) (lt_irrefl 0)
  have hwidth : jmax (jabs (JsVal.finite cw)) (JsVal.finite EPSILON) =
      JsVal.finite (max |cw| EPSILON) := rfl
  have hdivv : jdiv (JsVal.finite so) (JsVal.finite (max |cw| EPSILON)) =
      JsVal.finite (so / max |cw| EPSILON) := by
    simp only [jdiv]
    rw [if_neg hne]
  have hstart : clampIndex
      (jfloor (jdiv (JsVal.finite so) (jmax (jabs (JsVal.finite cw)) (JsVal.finite EPSILON))))
      batch.candles.length = effStartIndex so cw batch.candles.length := by
    rw [hwidth, hdivv]
    simp only [jfloor, clampIndex, effStartIndex, Int.floor_intCast]
  have hend : clampEnd
      (jceil (jadd (JsVal.finite ((effStartIndex so cw batch.candles.length : ℕ) : ℚ))
        (jmax (JsVal.finite 0) (JsVal.finite vc))))
      (effStartIndex so cw batch.candles.length) batch.candles.length =
      effEndIndex (effStartIndex so cw batch.candles.length) vc batch.candles.length := by
    simp only [jmax, jadd, jceil, clampEnd, effEndIndex, Int.ceil_intCast]
  constructor
  · unfold sliceCandlesForViewport
    rw [if_neg hlen]
    dsimp only
    rw [hstart]
  constructor
  · unfold sliceCandlesForViewport
    rw [if_neg hlen]
    dsimp only
    rw [hstart, hend]
  · unfold sliceCandlesForViewport
    rw [if_neg hlen]
    dsimp only
    rw [hstart, hend]
    by_cases hlt : effEndIndex (effStartIndex so cw batch.candles.length) vc
        batch.candles.length < batch.candles.length
    · rw [dif_pos hlt, if_pos hlt]
      congr 1
      rw [List.getD_eq_getElem _ _ hlt]
      rfl
    · rw [dif_neg hlt, if_neg hlt, List.append_nil]

/-- C8 counterexample: for a candle width of 1e-7 (positive but below
EPSILON = 1e-6) the code divides by EPSILON, not by candleWidth, so the
start index differs from the claimed clamp(floor(startOffset /
candleWidth), 0, n - 1) formula: 0 versus 2 at three candles. -/
theorem slicer_algorithm_c8_counterexample :
    ((sliceCandlesForViewport sampleBatch3 tinyViewport).startIndex : ℤ) ≠
      specStartIndex (3 / 10000000) (1 / 10000000) 3 := by
  obtain ⟨h1, -, -⟩ :=
    slice_eval sampleBatch3 (1 / 10000000) (3 / 10000000) 0 (by simp [sampleBatch3])
  rw [show tinyViewport =
    (⟨.finite (1 / 10000000), .finite (3 / 10000000), .finite 0⟩ : ChartViewport) from rfl]
  rw [h1]
  rw [show sampleBatch3.candles.length = 3 from rfl]
  have hm : max |(1 : ℚ) / 10000000| EPSILON = 1 / 1000000 := by
    rw [abs_of_pos (by norm_num : (0 : ℚ) < 1 / 10000000)]
    exact max_eq_right (by norm_num [EPSILON])
  unfold effStartIndex specStartIndex
  rw [hm]
  norm_num

/-- C8 amended: for every non-empty candle sequence of length n and every
finite viewport whose candleWidth is at least EPSILON (below that the code
divides by EPSILON instead), the slicer returns
startIndex = clamp(floor(startOffset / candleWidth), 0, n - 1),
endIndex = clamp(ceil(startIndex + visibleCount), startIndex, n), and the
slice candles[startIndex:endIndex] with one extra trailing candle appended
when endIndex is below n; in particular, for 10 candles, candleWidth 50,
startOffset 0, visibleCount 5 it returns startIndex 0, endIndex 5 and a
slice of length 6. -/
theorem slicer_algorithm_c8 :
    (∀ (batch : CandleBatch) (cw so vc : ℚ), 1 ≤ batch.candles.length →
      EPSILON ≤ cw →
      ((sliceCandlesForViewport batch ⟨.finite cw, .finite so, .finite vc⟩).startIndex : ℤ) =
        specStartIndex so cw batch.candles.length ∧
      ((sliceCandlesForViewport batch ⟨.finite cw, .finite so, .finite vc⟩).endIndex : ℤ) =
        specEndIndex (specStartIndex so cw batch.candles.length) vc batch.candles.length ∧
      (sliceCandlesForViewport batch ⟨.finite cw, .finite so, .finite vc⟩).candles =
        (batch.candles.drop
          (sliceCandlesForViewport batch ⟨.finite cw, .finite so, .finite vc⟩).startIndex).take
          ((sliceCandlesForViewport batch ⟨.finite cw, .finite so, .finite vc⟩).endIndex -
            (sliceCandlesForViewport batch ⟨.finite cw, .finite so, .finite vc⟩).startIndex) ++
        (if (sliceCandlesForViewport batch ⟨.finite cw, .finite so, .finite vc⟩).endIndex <
            batch.candles.length then
          [batch.candles.getD
            (sliceCandlesForViewport batch ⟨.finite cw, .finite so, .finite vc⟩).endIndex
            default]
        else [])) ∧
    (∀ cs : List Candle, cs.length = 10 →
      (sliceCandlesForViewport ⟨cs, none, none, none⟩
        ⟨.finite 50, .finite 0, .finite 5⟩).startIndex = 0 ∧
      (sliceCandlesForViewport ⟨cs, none, none, none⟩
        ⟨.finite 50, .finite 0, .finite 5⟩).endIndex = 5 ∧
      (sliceCandlesForViewport ⟨cs, none, none, none⟩
        ⟨.finite 50, .finite 0, .finite 5⟩).candles.length = 6) := by
  have heps : (0 : ℚ) < EPSILON := by norm_num [EPSILON]
  constructor
  · intro batch cw so vc hn hcw
    have hlen : batch.candles.length ≠ 0 := by omega
    obtain ⟨h1, h2, h3⟩ := slice_eval batch cw so vc hlen
    have hmax : max |cw| EPSILON = cw := by
      rw [abs_of_pos (lt_of_lt_of_le heps hcw)]
      exact max_eq_left hcw
    have hsi : ((effStartIndex so cw batch.candles.length : ℕ) : ℤ) =
        specStartIndex so cw batch.candles.length := by
      unfold effStartIndex specStartIndex
      rw [hmax]
      have hf := Int.le_of_lt (Int.lt_iff_add_one_le.mpr (le_refl (⌊so / cw⌋ + 1)))
      omega
    refine ⟨by rw [h1]; exact hsi, ?_, by rw [h1, h2]; exact h3⟩
    rw [h2, ← hsi]
    unfold effEndIndex specEndIndex
    rcases le_or_lt 0 vc with hvc | hvc
    · rw [max_eq_right hvc]
      have hc : ⌈((effStartIndex so cw batch.candles.length : ℕ) : ℚ) + vc⌉ =
          ⌈(((effStartIndex so cw batch.candles.length : ℕ) : ℤ) : ℚ) + vc⌉ := by
        norm_num
      rw [← hc]
      omega
    · rw [max_eq_left hvc.le, add_zero, Int.ceil_natCast]
      have hle : ⌈(((effStartIndex so cw batch.candles.length : ℕ) : ℤ) : ℚ) + vc⌉ ≤
          ((effStartIndex so cw batch.candles.length : ℕ) : ℤ) := by
        rw [Int.ceil_le]
        push_cast
        linarith
      omega
  · intro cs h10
    obtain ⟨h1, h2, h3⟩ := slice_eval ⟨cs, none, none, none⟩ 50 0 5 (by simp [h10])
    have hm : max |(50 : ℚ)| EPSILON = 50 := by
      rw [abs_of_pos (by norm_num : (0 : ℚ) < 50)]
      exact max_eq_left (by norm_num [EPSILON])
    have hstart0 : effStartIndex 0 50 cs.length = 0 := by
      unfold effStartIndex
      rw [hm, h10]
      norm_num
    have hend5 : effEndIndex 0 5 cs.length = 5 := by
      unfold effEndIndex
      rw [h10]
      norm_num
      rfl
    refine ⟨?_, ?_, ?_⟩
    · rw [h1]
      simpa using hstart0
    · rw [h2]
      rw [show (⟨cs, none, none, none⟩ : CandleBatch).candles.length = cs.length from rfl,
        hstart0, hend5]
    · rw [h3]
      rw [show (⟨cs, none, none, none⟩ : CandleBatch).candles.length = cs.length from rfl,
        hstart0, hend5]
      rw [if_pos (by omega : 5 < cs.length)]
      simp [h10]

/-! ### Viewport invariant lemmas for the gesture model -/

theorem clamp_def (v lo hi : ℚ) : clamp v lo hi = min (max v lo) hi := rfl

theorem clamp_le_hi (v lo hi : ℚ) : clamp v lo hi ≤ hi := by
  rw [clamp_def]
  exact min_le_right _ _

theorem lo_le_clamp (v lo hi : ℚ) (h : lo ≤ hi) : lo ≤ clamp v lo hi := by
  rw [clamp_def]
  exact le_min (le_max_right _ _) h

theorem clamp_eq_self (v lo hi : ℚ) (h1 : lo ≤ v) (h2 : v ≤ hi) :
    clamp v lo hi = v := by
  rw [clamp_def, max_eq_left h1, min_eq_left h2]

theorem getMaxStartOffset_nonneg (w cw : ℚ) (n : ℕ) :
    0 ≤ getMaxStartOffset w cw n := by
  unfold getMaxStartOffset
  split_ifs
  · exact le_refl 0
  · exact le_max_left _ _

theorem getMaxStartOffset_anti (w1 w2 cw : ℚ) (n : ℕ) (h : w2 ≤ w1) :
    getMaxStartOffset w1 cw n ≤ getMaxStartOffset w2 cw n := by
  unfold getMaxStartOffset
  split_ifs with hcw
  · exact le_refl 0
  · push_neg at hcw
    dsimp only
    apply max_le_max (le_refl 0)
    apply mul_le_mul_of_nonneg_left _ hcw.le
    apply sub_le_sub_left
    exact (div_le_div_iff_of_pos_right hcw).mpr h

theorem clampStartOffset_bounds (t w cw : ℚ) (n : ℕ) :
    0 ≤ clampStartOffset t w cw n ∧
    clampStartOffset t w cw n ≤ getMaxStartOffset w cw n := by
  unfold clampStartOffset
  exact ⟨lo_le_clamp _ _ _ (getMaxStartOffset_nonneg w cw n), clamp_le_hi _ _ _⟩

theorem handlePanStart_inv (n : ℕ) (s : VPState) (hs : VPInv n s) :
    VPInv n (handlePanStart s) := hs

theorem handlePinchStart_inv (n : ℕ) (f : ℚ) (s : VPState) (hs : VPInv n s) :
    VPInv n (handlePinchStart f s) := hs

theorem handlePanUpdate_inv (n : ℕ) (t : ℚ) (s : VPState) (hs : VPInv n s) :
    VPInv n (handlePanUpdate n t s) := by
  obtain ⟨hw, hcw, -, -⟩ := hs
  exact ⟨hw, hcw, (clampStartOffset_bounds _ _ _ _).1, (clampStartOffset_bounds _ _ _ _).2⟩

theorem handlePinchUpdate_inv (n : ℕ) (scale f : ℚ) (s : VPState) (hs : VPInv n s) :
    VPInv n (handlePinchUpdate n scale f s) := by
  obtain ⟨scw, scandw, soff, sprev, spcw, spso, sfx⟩ := s
  obtain ⟨hw, hcw, ho1, ho2⟩ := hs
  dsimp only at hw hcw ho1 ho2
  have hn1 : (0 : ℚ) < max (n : ℚ) 1 := lt_of_lt_of_le one_pos (le_max_right _ _)
  unfold handlePinchUpdate
  dsimp only
  split_ifs with h1 h2 h3
  · exact ⟨hw, hcw, ho1, ho2⟩
  · push_neg at h2
    refine ⟨hw, ?_, ?_, ?_⟩
    · exact le_trans (div_pos h2.2 hn1).le (lo_le_clamp _ _ _ (le_max_left _ _))
    · exact (clampStartOffset_bounds _ _ _ _).1
    · exact (clampStartOffset_bounds _ _ _ _).2
  · exact ⟨hw, hcw, ho1, ho2⟩
  · push_neg at h3
    refine ⟨hw, ?_, ?_, ?_⟩
    · exact le_trans (div_pos h3.2 hn1).le (lo_le_clamp _ _ _ (le_max_left _ _))
    · exact (clampStartOffset_bounds _ _ _ _).1
    · exact (clampStartOffset_bounds _ _ _ _).2

theorem handleLayoutResize_inv (width plw : ℚ) (n : ℕ) (ivc : ℚ) (s : VPState)
    (hn : 1 ≤ n) (hivc : 1 ≤ ivc) (hs : VPInv n s) :
    VPInv n (handleLayoutResize width plw n ivc s) := by
  obtain ⟨scw, scandw, soff, sprev, spcw, spso, sfx⟩ := s
  obtain ⟨hw, hcw, ho1, ho2⟩ := hs
  dsimp only at hw hcw ho1 ho2
  have hnq : (0 : ℚ) < (n : ℚ) := by exact_mod_cast hn
  unfold handleLayoutResize recalculateViewportForResize
  dsimp only
  have hW : 0 ≤ max (width - plw) 0 := le_max_right _ _
  split_ifs with hguard
  · refine ⟨hW, hcw, ho1, ?_⟩
    have hWle : max (width - plw) 0 ≤ scw := by
      rcases hguard with h | h
      · linarith
      · omega
    exact le_trans ho2 (getMaxStartOffset_anti _ _ _ _ hWle)
  · push_neg at hguard
    obtain ⟨hWpos, -⟩ := hguard
    cases sprev with
    | some pw =>
      refine ⟨hW, ?_, ?_, ?_⟩
      · exact le_trans (div_pos hWpos hnq).le (lo_le_clamp _ _ _ (le_max_left _ _))
      · exact lo_le_clamp _ _ _ (getMaxStartOffset_nonneg _ _ _)
      · exact clamp_le_hi _ _ _
    | none =>
      have hvc1 : (1 : ℚ) ≤ min (n : ℚ) ivc := le_min (by exact_mod_cast hn) hivc
      have hmaxvc : max (min (n : ℚ) ivc) 1 = min (n : ℚ) ivc := max_eq_left hvc1
      have hvcpos : (0 : ℚ) < min (n : ℚ) ivc := lt_of_lt_of_le one_pos hvc1
      have hncw : 0 < max (width - plw) 0 / min (n : ℚ) ivc :=
        div_pos hWpos hvcpos
      refine ⟨hW, ?_, le_max_left _ _, ?_⟩
      · rw [hmaxvc]
        exact hncw.le
      · rw [hmaxvc]
        unfold getMaxStartOffset
        rw [if_neg (not_le.mpr hncw)]
        dsimp only
        have key : max (width - plw) 0 / (max (width - plw) 0 / min (n : ℚ) ivc) =
            min (n : ℚ) ivc := by
          rw [div_div_eq_mul_div, mul_comm]
          exact mul_div_cancel_right₀ _ hWpos.ne.symm
        rw [key, mul_comm]

theorem applyOp_inv (n : ℕ) (ivc : ℚ) (s : VPState) (op : GestureOp)
    (hn : 1 ≤ n) (hivc : 1 ≤ ivc) (hs : VPInv n s) :
    VPInv n (applyOp n ivc s op) := by
  cases op with
  | resize width plw => exact handleLayoutResize_inv width plw n ivc s hn hivc hs
  | panStart => exact handlePanStart_inv n s hs
  | panUpdate t => exact handlePanUpdate_inv n t s hs
  | pinchStart f => exact handlePinchStart_inv n f s hs
  | pinchUpdate sc f => exact handlePinchUpdate_inv n sc f s hs

theorem applyOps_inv (n : ℕ) (ivc : ℚ) (hn : 1 ≤ n) (hivc : 1 ≤ ivc) :
    ∀ (ops : List GestureOp) (s : VPState), VPInv n s →
      VPInv n (applyOps n ivc s ops) := by
  intro ops
  induction ops with
  | nil => intro s hs; exact hs
  | cons op rest ih =>
    intro s hs
    exact ih _ (applyOp_inv n ivc s op hn hivc hs)

theorem initialVPState_inv (n : ℕ) : VPInv n initialVPState := by
  refine ⟨le_refl 0, le_refl 0, le_refl 0, ?_⟩
  unfold getMaxStartOffset initialVPState
  rw [if_pos (le_refl (0 : ℚ))]

/-! ### C1: startOffset invariant -/

/-- C1 counterexample: with candle count 1 and initialVisibleCount 0, the
single initializing Resize to width 100 leaves startOffset at 100 while
maxStartOffset is 0, so the claimed invariant fails for that initialized
viewport. -/
theorem startOffset_invariant_c1_counterexample :
    ¬ ((applyOps 1 0 initialVPState [.resize 100 0]).startOffset ≤
      getMaxStartOffset (applyOps 1 0 initialVPState [.resize 100 0]).chartWidth
        (applyOps 1 0 initialVPState [.resize 100 0]).candleWidth 1) := by
  norm_num [applyOps, applyOp, handleLayoutResize, recalculateViewportForResize,
    initialVPState, getMaxStartOffset]

/-- C1 amended: for every candle count of at least 1, every configured
initialVisibleCount of at least 1, and every finite sequence of Resize,
Pan-update and Pinch-update operations (with their snapshot-setting start
events) applied from the uninitialized state, the resulting startOffset
lies within [0, maxStartOffset(drawableWidth, candleWidth, candleCount)]. -/
theorem startOffset_invariant_c1 (candleCount : ℕ) (ivc : ℚ)
    (ops : List GestureOp) (hn : 1 ≤ candleCount) (hivc : 1 ≤ ivc) :
    0 ≤ (applyOps candleCount ivc initialVPState ops).startOffset ∧
    (applyOps candleCount ivc initialVPState ops).startOffset ≤
      getMaxStartOffset (applyOps candleCount ivc initialVPState ops).chartWidth
        (applyOps candleCount ivc initialVPState ops).candleWidth candleCount := by
  have h := applyOps_inv candleCount ivc hn hivc ops initialVPState
    (initialVPState_inv candleCount)
  exact ⟨h.2.2.1, h.2.2.2⟩

theorem startOffset_invariant_c1_witness :
    0 ≤ (applyOps 1 90 initialVPState [.resize 100 0]).startOffset ∧
    (applyOps 1 90 initialVPState [.resize 100 0]).startOffset ≤
      getMaxStartOffset (applyOps 1 90 initialVPState [.resize 100 0]).chartWidth
        (applyOps 1 90 initialVPState [.resize 100 0]).candleWidth 1 :=
  startOffset_invariant_c1 1 90 [.resize 100 0] (by norm_num) (by norm_num)

/-! ### C7: resize idempotence -/

/-- C7 counterexample: with width 15, 15 candles and initialVisibleCount 1,
the initializing Resize sets candleWidth 15 (one candle visible), and the
second identical Resize re-clamps it into the at-least-14-candles zoom
bound, returning 15/14, so Resize twice differs from Resize once. -/
theorem resize_idempotent_c7_counterexample :
    (recalculateViewportForResize 15 15 1
      (recalculateViewportForResize 15 15 1 initialVPState)).candleWidth ≠
      (recalculateViewportForResize 15 15 1 initialVPState).candleWidth := by
  norm_num [recalculateViewportForResize, initialVPState, clamp, clampJs,
    getMaxStartOffset, clampStartOffset]

/-- C7 amended: for every drawable width above 0, candle count above 0,
and initialVisibleCount at least min(14, candleCount), calling Resize
twice in a row with identical arguments produces the same candleWidth and
startOffset after the second, re-clamping call as after the first,
initializing call. -/
theorem resize_idempotent_c7 (w ivc : ℚ) (n : ℕ) (hw : 0 < w) (hn : 0 < n)
    (hivc : min 14 (n : ℚ) ≤ ivc) :
    (recalculateViewportForResize w n ivc
      (recalculateViewportForResize w n ivc initialVPState)).candleWidth =
      (recalculateViewportForResize w n ivc initialVPState).candleWidth ∧
    (recalculateViewportForResize w n ivc
      (recalculateViewportForResize w n ivc initialVPState)).startOffset =
      (recalculateViewportForResize w n ivc initialVPState).startOffset := by
  have hnq : (0 : ℚ) < (n : ℚ) := by exact_mod_cast hn
  have hnq1 : (1 : ℚ) ≤ (n : ℚ) := by exact_mod_cast hn
  have h14 : (1 : ℚ) ≤ min 14 (n : ℚ) := le_min (by norm_num) hnq1
  have h14pos : (0 : ℚ) < min 14 (n : ℚ) := lt_of_lt_of_le one_pos h14
  have hvc1 : (1 : ℚ) ≤ min (n : ℚ) ivc := le_min hnq1 (le_trans h14 hivc)
  have hvcpos : (0 : ℚ) < min (n : ℚ) ivc := lt_of_lt_of_le one_pos hvc1
  have hmaxvc : max (min (n : ℚ) ivc) 1 = min (n : ℚ) ivc := max_eq_left hvc1
  have hm14 : max (min 14 (n : ℚ)) 1 = min 14 (n : ℚ) := max_eq_left h14
  have hguard : ¬ (w ≤ 0 ∨ n = 0) := by push_neg; exact ⟨hw, by omega⟩
  have hcw1pos : 0 < w / min (n : ℚ) ivc := div_pos hw hvcpos
  have hs1 : recalculateViewportForResize w n ivc initialVPState =
      { chartWidth := 0, candleWidth := w / min (n : ℚ) ivc,
        startOffset := max 0 (((n : ℚ) - min (n : ℚ) ivc) * (w / min (n : ℚ) ivc)),
        prevChartWidth := some w, prevCandleWidth := 0, prevStartOffset := 0,
        initialFocalX := 0 } := by
    unfold recalculateViewportForResize initialVPState
    rw [if_neg hguard]
    dsimp only
    rw [hmaxvc]
  have hlo : w / (n : ℚ) ≤ w / min (n : ℚ) ivc :=
    (div_le_div_iff_of_pos_left hw hnq hvcpos).mpr (min_le_left _ _)
  have hhi : w / min (n : ℚ) ivc ≤ max (w / (n : ℚ)) (w / min 14 (n : ℚ)) :=
    le_trans ((div_le_div_iff_of_pos_left hw hvcpos h14pos).mpr
      (le_min (min_le_right _ _) hivc)) (le_max_right _ _)
  have hcw2 : clamp (w / min (n : ℚ) ivc) (w / (n : ℚ))
      (max (w / (n : ℚ)) (w / min 14 (n : ℚ))) = w / min (n : ℚ) ivc :=
    clamp_eq_self _ _ _ hlo hhi
  have key : w / (w / min (n : ℚ) ivc) = min (n : ℚ) ivc := by
    rw [div_div_eq_mul_div, mul_comm]
    exact mul_div_cancel_right₀ _ hw.ne.symm
  have hbound : getMaxStartOffset w (w / min (n : ℚ) ivc) n =
      max 0 (((n : ℚ) - min (n : ℚ) ivc) * (w / min (n : ℚ) ivc)) := by
    unfold getMaxStartOffset
    rw [if_neg (not_le.mpr hcw1pos)]
    dsimp only
    rw [key, mul_comm]
  have hclampoff : clamp
      (max 0 (((n : ℚ) - min (n : ℚ) ivc) * (w / min (n : ℚ) ivc))) 0
      (max 0 (((n : ℚ) - min (n : ℚ) ivc) * (w / min (n : ℚ) ivc))) =
      max 0 (((n : ℚ) - min (n : ℚ) ivc) * (w / min (n : ℚ) ivc)) :=
    clamp_eq_self _ _ _ (le_max_left _ _) (le_refl _)
  have hs2 : recalculateViewportForResize w n ivc
      (recalculateViewportForResize w n ivc initialVPState) =
      { chartWidth := 0, candleWidth := w / min (n : ℚ) ivc,
        startOffset := max 0 (((n : ℚ) - min (n : ℚ) ivc) * (w / min (n : ℚ) ivc)),
        prevChartWidth := some w, prevCandleWidth := 0, prevStartOffset := 0,
        initialFocalX := 0 } := by
    rw [hs1]
    unfold recalculateViewportForResize
    rw [if_neg hguard]
    dsimp only
    rw [hm14, hcw2, hbound, hclampoff]
  rw [hs2, hs1]
  exact ⟨rfl, rfl⟩

theorem resize_idempotent_c7_witness :
    (recalculateViewportForResize 100 20 90
      (recalculateViewportForResize 100 20 90 initialVPState)).candleWidth =
      (recalculateViewportForResize 100 20 90 initialVPState).candleWidth ∧
    (recalculateViewportForResize 100 20 90
      (recalculateViewportForResize 100 20 90 initialVPState)).startOffset =
      (recalculateViewportForResize 100 20 90 initialVPState).startOffset :=
  resize_idempotent_c7 100 90 20 (by norm_num) (by norm_num) (by norm_num)

theorem slicer_algorithm_c8_witness :
    (sliceCandlesForViewport ⟨tenCandles, none, none, none⟩
      ⟨.finite 50, .finite 0, .finite 5⟩).startIndex = 0 ∧
    (sliceCandlesForViewport ⟨tenCandles, none, none, none⟩
      ⟨.finite 50, .finite 0, .finite 5⟩).endIndex = 5 ∧
    (sliceCandlesForViewport ⟨tenCandles, none, none, none⟩
      ⟨.finite 50, .finite 0, .finite 5⟩).candles.length = 6 :=
  slicer_algorithm_c8.2 tenCandles (by simp [tenCandles])

end StockChart
